import Mathlib

/-!
# gRPC ping-pong demo (`demos/golang/grpc_pingpong`)

A shallow embedding of the responder (`pong.go`) and the requester (`ping.go`).

* Go strings are Lean `String`s; a Go byte buffer (`[]byte`) that is being appended to is a
  `List Char`.
* A Go pointer that may be `nil` is an `Option`; a Go `error` value is `Option Error`.
* `time.Now()` is an explicit clock reading passed to the code that reads the clock.
* Writes to standard output and calls into the gRPC library are recorded, in order, as a list
  of `Event`s.
-/

namespace GrpcPingPong

/-! ## Messages and errors -/

/-- A non-nil Go `error`, identified with the text it prints as. -/
abbrev Error := String

/-- Modelled from the spec: the generated protobuf message `pingpong.PingPongMesg` (the
generated package is not among the sources); a record of the three text fields `ping`, `pong`
and `timestamp`, each empty when not set. -/
structure PingPongMesg where
  Ping : String := ""
  Pong : String := ""
  Timestamp : String := ""
  deriving DecidableEq, Repr

/-! ## Clock readings and `Time.Format`

Both programs format clock readings with `Format("2006-01-02T15:04:05.999999999Z07:00")`.
The formatting routine belongs to Go's `time` package, which is not among the sources. Every
definition of this section is part of a model of it for this one layout, written after the
library's `AppendFormat`, `absDate`, `absClock`, `appendInt` and `formatNano`: a timestamp with
the date, the time of day, a fraction of a second without trailing zeros, and the zone
offset. -/

/-- Modelled from the spec: a wall-clock reading as `time.Now()` returns it (the type
`time.Time` is library code, not among the sources): seconds since the Unix epoch, the
nanoseconds within that second (always below one second), and the offset east of UTC, in
seconds, that the reading's location has at that instant (always less than a day). -/
structure Time where
  sec : Int
  nsec : Nat
  offset : Int
  nsec_lt : nsec < 1000000000
  offset_gt : -86400 < offset
  offset_lt : offset < 86400

/-- The instant of `t` is not after the instant of `u`: `!t.After(u)`. -/
def Time.notAfter (t u : Time) : Prop :=
  t.sec < u.sec ∨ (t.sec = u.sec ∧ t.nsec ≤ u.nsec)

instance (t u : Time) : Decidable (t.notAfter u) := by
  unfold Time.notAfter; infer_instance

def secondsPerDay : Nat := 86400
def daysPer400Years : Nat := 146097
def daysPer100Years : Nat := 36524
def daysPer4Years : Nat := 1461

/-- The year that absolute time zero falls in. -/
def absoluteZeroYear : Int := -292277022399

/-- The constant `unixToInternal + internalToAbsolute`. -/
def unixToAbsolute : Int := 9223372028715321600

/-- Seconds of local time since the start of the absolute zero year, as a `uint64`:
`uint64(sec + offset + (unixToInternal + internalToAbsolute))`. -/
def Time.abs (t : Time) : Nat :=
  ((t.sec + t.offset + unixToAbsolute) % 18446744073709551616).toNat

/-- Test for a leap year (`isLeap`). Only zero tests of the remainders are made, so the
rounding of `%` on negative years plays no part. -/
def isLeap (year : Int) : Bool :=
  year % 4 == 0 && (year % 100 != 0 || year % 400 == 0)

/-- Years elapsed since the absolute zero year and the day within the year (from zero), for a
count of days since absolute time zero: the first half of `absDate`. -/
def absYearDay (d : Nat) : Nat × Nat :=
  -- Account for 400 year cycles.
  let n := d / daysPer400Years
  let y := 400 * n
  let d := d - daysPer400Years * n
  -- Cut off 100-year cycles; the last cycle has one extra leap year.
  let n := d / daysPer100Years
  let n := n - n / 4
  let y := y + 100 * n
  let d := d - daysPer100Years * n
  -- Cut off 4-year cycles.
  let n := d / daysPer4Years
  let y := y + 4 * n
  let d := d - daysPer4Years * n
  -- Cut off years within a 4-year cycle.
  let n := d / 365
  let n := n - n / 4
  let y := y + n
  let d := d - 365 * n
  (y, d)

/-- The table `daysBefore`: days in a non-leap year before month `m + 1` starts. -/
def daysBefore : List Nat := [0, 31, 59, 90, 120, 151, 181, 212, 243, 273, 304, 334, 365]

/-- Month (January is 1) and day of the month for a day of the year counted from zero: the
second half of `absDate`. -/
def monthDay (leap : Bool) (yday : Nat) : Nat × Nat :=
  if leap && yday == 31 + 29 - 1 then
    -- Leap day.
    (2, 29)
  else
    -- After leap day; pretend it wasn't there.
    let day := if leap && yday > 31 + 29 - 1 then yday - 1 else yday
    -- Estimate month on assumption that every month has 31 days.
    let month := day / 31
    let stop := daysBefore.getD (month + 1) 0
    if day ≥ stop then
      (month + 2, day - stop + 1)
    else
      (month + 1, day - daysBefore.getD month 0 + 1)

/-- The date of an absolute time: `absDate(abs, true)`, without the day of the year. -/
def absDate (abs : Nat) : Int × Nat × Nat :=
  let yd := absYearDay (abs / secondsPerDay)
  let year : Int := (yd.1 : Int) + absoluteZeroYear
  let md := monthDay (isLeap year) yd.2
  (year, md.1, md.2)

/-- The time of day of an absolute time: `absClock`. -/
def absClock (abs : Nat) : Nat × Nat × Nat :=
  let sec := abs % secondsPerDay
  let hour := sec / 3600
  let sec := sec - hour * 3600
  let min := sec / 60
  let sec := sec - min * 60
  (hour, min, sec)

/-- The byte `'0' + d`. -/
def digitChar (d : Nat) : Char := Char.ofNat (48 + d)

/-- The decimal digits of `u`, most significant first, as `appendInt` assembles them in its
buffer of twenty bytes; the first argument counts the room left in the buffer. -/
def decimalDigits : Nat → Nat → List Char
  | 0, u => [digitChar (u % 10)]
  | room + 1, u =>
    if u < 10 then [digitChar u] else decimalDigits room (u / 10) ++ [digitChar (u % 10)]

/-- Append the decimal form of `x`, zero-padded to `width` digits, to `b`: `appendInt`. -/
def appendInt (b : List Char) (x : Int) (width : Nat) : List Char :=
  let b := if x < 0 then b ++ ['-'] else b
  let digits := decimalDigits 19 x.natAbs
  b ++ List.replicate (width - digits.length) '0' ++ digits

/-- The last `w` decimal digits of `u`, most significant first: the loop of `formatNano` that
fills its buffer from the right, one digit `u % 10` a round, dividing `u` by ten. -/
def fixedDigits : Nat → Nat → List Char
  | 0, _ => []
  | w + 1, u => fixedDigits w (u / 10) ++ [digitChar (u % 10)]

/-- Drop the zero bytes at the end of a buffer. -/
def trimTrailingZeros (buf : List Char) : List Char :=
  (buf.reverse.dropWhile (fun c => c == '0')).reverse

/-- Append a fractional second to `b` for the layout element `.999999999`: the nine digits of
the nanoseconds without the trailing zeros, after a dot, and nothing at all when no digit is
left (`formatNano` with nine digits and `trim` set). -/
def formatNano (b : List Char) (nanosec : Nat) : List Char :=
  let digits := trimTrailingZeros (fixedDigits 9 nanosec)
  if digits = [] then b else b ++ ['.'] ++ digits

/-- Append the zone for the layout element `Z07:00`: `Z` for a zero offset, else a sign, the
hours, a colon and the minutes. Go's `/` and `%` on integers truncate. -/
def appendZone (b : List Char) (offset : Int) : List Char :=
  if offset = 0 then b ++ ['Z']
  else
    let zone := Int.tdiv offset 60
    let signed := if zone < 0 then (b ++ ['-'], -zone) else (b ++ ['+'], zone)
    let b := appendInt signed.1 (Int.tdiv signed.2 60) 2
    appendInt (b ++ [':']) (Int.tmod signed.2 60) 2

/-- The layout elements that occur in `2006-01-02T15:04:05.999999999Z07:00`. -/
inductive Std where
  | stdLongYear
  | stdZeroMonth
  | stdZeroDay
  | stdHour
  | stdZeroMinute
  | stdZeroSecond
  | stdFracSecond9
  | stdISO8601ColonTZ
  deriving DecidableEq, Repr

/-- A layout cut into its pieces (what repeated `nextStdChunk` yields): literal text that is
copied, or a layout element. -/
inductive Chunk where
  | lit (text : List Char)
  | std (s : Std)
  deriving DecidableEq, Repr

/-- The layout `"2006-01-02T15:04:05.999999999Z07:00"` in pieces. -/
def layout : List Chunk :=
  [.std .stdLongYear, .lit ['-'], .std .stdZeroMonth, .lit ['-'], .std .stdZeroDay, .lit ['T'],
   .std .stdHour, .lit [':'], .std .stdZeroMinute, .lit [':'], .std .stdZeroSecond,
   .std .stdFracSecond9, .std .stdISO8601ColonTZ]

/-- One round of the loop of `AppendFormat`: append one piece of the layout to `b`. -/
def appendChunk (t : Time) (b : List Char) : Chunk → List Char
  | .lit text => b ++ text
  | .std .stdLongYear => appendInt b (absDate t.abs).1 4
  | .std .stdZeroMonth => appendInt b (absDate t.abs).2.1 2
  | .std .stdZeroDay => appendInt b (absDate t.abs).2.2 2
  | .std .stdHour => appendInt b (absClock t.abs).1 2
  | .std .stdZeroMinute => appendInt b (absClock t.abs).2.1 2
  | .std .stdZeroSecond => appendInt b (absClock t.abs).2.2 2
  | .std .stdFracSecond9 => formatNano b t.nsec
  | .std .stdISO8601ColonTZ => appendZone b t.offset

/-- Append `t` formatted by the pieces of a layout: `AppendFormat`. -/
def Time.AppendFormat (t : Time) (b : List Char) (chunks : List Chunk) : List Char :=
  chunks.foldl (appendChunk t) b

/-- Modelled from the spec: the text of `t.Format("2006-01-02T15:04:05.999999999Z07:00")`
(the method `Format` is library code, not among the sources): an ISO-8601-like timestamp with
a fraction of a second, trailing zeros dropped, and the zone offset. -/
def Time.Format (t : Time) : String :=
  String.mk (t.AppendFormat [] layout)

/-! ## The responder (`pong.go`) -/

/-- What a process does that can be seen from outside, in order. -/
inductive Event where
  /-- Text written to standard output. -/
  | stdout (text : String)
  /-- A call `conn.Close()` on the client connection, `none` for a nil connection. -/
  | close (connected : Option Unit)
  /-- A call `RegisterPingPongServiceServer(grpcServer, &PingPongServer{})`. -/
  | register
  /-- A call `grpcServer.Serve(conn)`, `none` for a nil listener. -/
  | serve (listener : Option Unit)
  deriving DecidableEq, Repr

/-- The outcome of one call of the handler: what it wrote to standard output, and the pair
`(*PingPongMesg, error)` it returned. -/
structure HandlerResult where
  stdout : String
  reply : Option PingPongMesg
  err : Option Error
  deriving DecidableEq, Repr

/-- The handler `(*PingPongServer).PingPong`, at clock reading `currentTime`. -/
def PingPong (currentTime : Time) (req : PingPongMesg) : HandlerResult :=
  { stdout := "Receiving Ping: " ++ req.Ping ++ " (at " ++ currentTime.Format ++ ")\n"
    reply := some { Ping := req.Ping
                    Pong := "Greetings from Pong! Ping Echoed: " ++ req.Ping
                    Timestamp := currentTime.Format }
    err := none }

/-- What a call of `grpcServer.Serve` does, seen from `main`. -/
inductive ServeOutcome where
  /-- `Serve` returns, with an error or with nil. -/
  | returns (err : Option Error)
  /-- `Serve` panics. -/
  | panics
  /-- `Serve` never returns: the server keeps serving. -/
  | blocks
  deriving DecidableEq, Repr

/-- How a run of `main` ends. -/
inductive Exit where
  /-- `main` returned: the process exits with status 0. -/
  | returned
  /-- A run-time panic ended the process. -/
  | panicked
  /-- `main` is still inside a call that does not return. -/
  | blocked
  deriving DecidableEq, Repr

/-- A run of `main`: the events in order and how the run ends. -/
structure Run where
  events : List Event
  exit : Exit
  deriving DecidableEq, Repr

/-- What the responder's `main` gets from outside: the pair `(conn, err)` returned by
`net.Listen("tcp", "localhost:8888")` and what `grpcServer.Serve` does with the listener it
is handed. -/
structure ResponderEnv where
  listenConn : Option Unit
  listenErr : Option Error
  serve : Option Unit → ServeOutcome

/-- The responder's `main`. -/
def responderMain (env : ResponderEnv) : Run :=
  let out := [Event.stdout "grpc_pingpong server is waiting for service requests ...\n"]
  let out := match env.listenErr with
    | some err => out ++ [Event.stdout ("Failed to listen: " ++ err ++ "\n")]
    | none => out
  let out := out ++ [Event.register]
  let out := out ++ [Event.serve env.listenConn]
  match env.serve env.listenConn with
  | .returns (some err) =>
    { events := out ++ [Event.stdout ("Failed to serve: " ++ err ++ "\n")], exit := .returned }
  | .returns none => { events := out, exit := .returned }
  | .panics => { events := out, exit := .panicked }
  | .blocks => { events := out, exit := .blocked }

/-! ## The requester (`ping.go`) -/

/-- The message the requester sends: `&pingpong.PingPongMesg{Ping: "Hello"}`. -/
def requestMesg : PingPongMesg := { Ping := "Hello" }

/-- What the requester's `main` gets from outside: the pair `(conn, err)` returned by
`grpc.Dial`, the two clock readings, the pair `(response, err)` that `client.PingPong` returns
for a request (the generated client and the transport are not among the sources), and the
text that `%f` gives for the floating-point number `currentTime.Sub(previousTime).Seconds()`. -/
structure RequesterEnv where
  dialConn : Option Unit
  dialErr : Option Error
  previousTime : Time
  call : PingPongMesg → Option PingPongMesg × Option Error
  currentTime : Time
  elapsedSeconds : Time → Time → String

/-- The requester's `main`. Reading a field through the nil pointer `response` is a run-time
panic; the deferred `conn.Close()` runs when `main` returns and when it panics. What `Close`
does inside the library is not followed: the run records the call. -/
def requesterMain (env : RequesterEnv) : Run :=
  let out := match env.dialErr with
    | some err => [Event.stdout ("Failed to connect: " ++ err ++ "\n")]
    | none => []
  let out := out ++ [Event.stdout ("Ping: at " ++ env.previousTime.Format ++ "\n")]
  let result := env.call requestMesg
  let out := match result.2 with
    | some err => out ++ [Event.stdout ("Error when calling PingPongHandler: " ++ err ++ "\n")]
    | none => out
  match result.1 with
  | none => { events := out ++ [Event.close env.dialConn], exit := .panicked }
  | some response =>
    let out := out ++ [Event.stdout
      ("Pong from server: " ++ response.Pong ++ " (at " ++ response.Timestamp ++ ")\n")]
    let out := out ++ [Event.stdout
      ("End-to-End latency is: " ++ env.elapsedSeconds env.currentTime env.previousTime ++
        " Seconds\n")]
    { events := out ++ [Event.close env.dialConn], exit := .returned }

/-- A call that reaches a running responder: the reply is what the handler returns at the
responder's clock reading `serverTime`. -/
def callResponder (serverTime : Time) (req : PingPongMesg) :
    Option PingPongMesg × Option Error :=
  ((PingPong serverTime req).reply, (PingPong serverTime req).err)

/-! ## Notions used in the statements and proofs -/



/-- Days from absolute time zero to the start of the year `y` years later. -/
def daysSinceZero (y : Nat) : Nat := 365 * y + y / 4 - y / 100 + y / 400

/-- The year `y` years after the absolute zero year is a leap year. -/
def leapAfterZero (y : Nat) : Prop :=
  (y + 1) % 4 = 0 ∧ ((y + 1) % 100 ≠ 0 ∨ (y + 1) % 400 = 0)

/-- A month and day as one number that orders dates within a year. -/
def dateKey (md : Nat × Nat) : Nat := 32 * md.1 + md.2

/-- The local date of `t` lies in the years 0000 to 9999: the local time of `t` is not before
0000-01-01T00:00:00 and is before 10000-01-01T00:00:00. -/
def Time.inYearRange (t : Time) : Prop :=
  -62167219200 ≤ t.sec + t.offset ∧ t.sec + t.offset < 253402300800

instance (t : Time) : Decidable t.inYearRange := by
  unfold Time.inYearRange; infer_instance

/-- The fraction of a second as the layout element `.999999999` prints it. -/
def fracText (nanosec : Nat) : List Char :=
  if nanosec = 0 then [] else '.' :: trimTrailingZeros (fixedDigits 9 nanosec)

/-- The zone as the layout element `Z07:00` prints it. -/
def zoneText (offset : Int) : List Char :=
  if offset = 0 then ['Z']
  else (if offset ≤ -60 then '-' else '+') ::
    (fixedDigits 2 (offset.natAbs / 60 / 60) ++ ':' :: fixedDigits 2 (offset.natAbs / 60 % 60))

/-- The month, the day and the time of day of an absolute time, each in two digits, in the
form `-01-02T15:04:05`. -/
def monthToSecondText (abs : Nat) : List Char :=
  '-' :: (fixedDigits 2 (absDate abs).2.1 ++ '-' :: (fixedDigits 2 (absDate abs).2.2 ++
    'T' :: (fixedDigits 2 (absClock abs).1 ++ ':' :: (fixedDigits 2 (absClock abs).2.1 ++
      ':' :: fixedDigits 2 (absClock abs).2.2))))

/-- Years from the absolute zero year to the year 0. -/
def yearsToYearZero : Nat := 292277022399

/-- The first absolute time of the year 0. -/
def absYearZero : Nat := 9223371966548102400

/-- The first absolute time of the year 10000. -/
def absYearTenThousand : Nat := 9223372282117622400

/-! ### The shape of a timestamp

A recogniser for timestamps of the form `2006-01-02T15:04:05.999999999Z07:00`: a date of the
calendar, `T`, the time of day, an optional fraction of a second, and `Z` or a signed zone
offset. -/

/-- Skip the decimal digits at the front of `s`: how many there are, and what follows. -/
def skipDigits : List Char → Nat × List Char
  | [] => (0, [])
  | c :: s => if c.isDigit then ((skipDigits s).1 + 1, (skipDigits s).2) else (0, c :: s)

/-- Read the byte `c`. -/
def expectByte (c : Char) : List Char → Option (List Char)
  | [] => none
  | x :: s => if x = c then some s else none

/-- Read a field of two digits whose value is at least `lo` and at most `hi`. -/
def twoDigitField (lo hi : Nat) : List Char → Option (List Char)
  | a :: b :: s =>
    if a.isDigit ∧ b.isDigit ∧ lo ≤ (a.toNat - 48) * 10 + (b.toNat - 48) ∧
        (a.toNat - 48) * 10 + (b.toNat - 48) ≤ hi then some s else none
  | _ => none

/-- Test for a leap year of the Gregorian calendar. -/
def leapYear (year : Nat) : Bool :=
  year % 4 == 0 && (year % 100 != 0 || year % 400 == 0)

/-- The number of days of a month, counted from 1 for January, in a leap year or in another
year. -/
def daysInMonth (leap : Bool) (month : Nat) : Nat :=
  if month = 2 then (if leap then 29 else 28)
  else if month = 4 ∨ month = 6 ∨ month = 9 ∨ month = 11 then 30
  else 31

/-- Read a date `2006-01-02`: a year of four digits, a month from 01 to 12, and a day from 01
to the last day that the month has in that year. -/
def dateField : List Char → Option (List Char)
  | y1 :: y2 :: y3 :: y4 :: c1 :: m1 :: m2 :: c2 :: d1 :: d2 :: s =>
    if y1.isDigit ∧ y2.isDigit ∧ y3.isDigit ∧ y4.isDigit ∧ c1 = '-' ∧
        m1.isDigit ∧ m2.isDigit ∧ c2 = '-' ∧ d1.isDigit ∧ d2.isDigit ∧
        1 ≤ (m1.toNat - 48) * 10 + (m2.toNat - 48) ∧
        (m1.toNat - 48) * 10 + (m2.toNat - 48) ≤ 12 ∧
        1 ≤ (d1.toNat - 48) * 10 + (d2.toNat - 48) ∧
        (d1.toNat - 48) * 10 + (d2.toNat - 48) ≤
          daysInMonth
            (leapYear ((((y1.toNat - 48) * 10 + (y2.toNat - 48)) * 10 + (y3.toNat - 48)) * 10 +
              (y4.toNat - 48)))
            ((m1.toNat - 48) * 10 + (m2.toNat - 48)) then some s
    else none
  | _ => none

/-- Read the fraction of a second, if there is one: a dot and one to nine digits. -/
def fractionField : List Char → Option (List Char)
  | [] => some []
  | c :: s =>
    if c = '.' then
      if 1 ≤ (skipDigits s).1 ∧ (skipDigits s).1 ≤ 9 then some (skipDigits s).2 else none
    else some (c :: s)

/-- Read the zone: `Z`, or a sign, the hours, a colon and the minutes. -/
def zoneField : List Char → Option (List Char)
  | [] => none
  | c :: s =>
    if c = 'Z' then some s
    else if c = '+' ∨ c = '-' then
      ((twoDigitField 0 23 s).bind (expectByte ':')).bind (twoDigitField 0 59)
    else none

/-- Read a whole timestamp; what is left over is returned. -/
def timestampFields (s : List Char) : Option (List Char) := do
  let s ← dateField s
  let s ← expectByte 'T' s
  let s ← twoDigitField 0 23 s
  let s ← expectByte ':' s
  let s ← twoDigitField 0 59 s
  let s ← expectByte ':' s
  let s ← twoDigitField 0 59 s
  let s ← fractionField s
  zoneField s

/-- The text `s` is a valid timestamp of the form `2006-01-02T15:04:05.999999999Z07:00`: a
year of exactly four digits, a month from 01 to 12, a day that the month has in that year,
`T`, an hour from 00 to 23, a minute and a second from 00 to 59, an optional fraction of one
to nine digits, and a zone that is `Z` or a sign with hours from 00 to 23 and minutes from 00
to 59, and nothing more. -/
def validTimestamp (s : String) : Bool :=
  timestampFields s.data == some []

/-- The year of the local date of `t`: `t.Year()`. -/
def Time.Year (t : Time) : Int := (absDate t.abs).1

/-! ### Sample clock readings and runs -/

/-- The reading 2024-01-01T12:00:00 in UTC. -/
def noonUTC : Time := ⟨1704110400, 0, 0, by decide, by decide, by decide⟩

/-- Half a second after `noonUTC`, in UTC. -/
def halfPastNoonUTC : Time := ⟨1704110400, 500000000, 0, by decide, by decide, by decide⟩

/-- The reading 2024-02-29T18:04:56.123456 in a zone five and a half hours east of UTC. -/
def eveningEast : Time := ⟨1709210096, 123456000, 19800, by decide, by decide, by decide⟩

/-- Seven hundred nanoseconds after `eveningEast`, in the same zone. -/
def laterEveningEast : Time := ⟨1709210096, 123456700, 19800, by decide, by decide, by decide⟩

/-- The last second before a clock in a zone two hours east of UTC is set back an hour. -/
def beforeClockChange : Time := ⟨1729990799, 0, 7200, by decide, by decide, by decide⟩

/-- One second after `beforeClockChange`, the zone now being one hour east of UTC. -/
def afterClockChange : Time := ⟨1729990800, 0, 3600, by decide, by decide, by decide⟩

/-- One second and a quarter after `noonUTC`, in UTC. -/
def afterNoonUTC : Time := ⟨1704110401, 250000000, 0, by decide, by decide, by decide⟩

/-- The first second of the year 10000 in UTC. -/
def yearTenThousandUTC : Time := ⟨253402300800, 0, 0, by decide, by decide, by decide⟩

/-- The last second of the year 9999 in a zone one hour east of UTC. -/
def endOfYear9999 : Time := ⟨253402297199, 0, 3600, by decide, by decide, by decide⟩

/-- One second after `endOfYear9999`, in the same zone. -/
def startOfYear10000 : Time := ⟨253402297200, 0, 3600, by decide, by decide, by decide⟩

/-- A run of the requester with nothing listening on `localhost:8888`: `grpc.Dial` hands back
a connection without waiting for it to be usable, and the call then fails with no response. -/
def noListenerEnv : RequesterEnv :=
  { dialConn := some ()
    dialErr := none
    previousTime := noonUTC
    call := fun _ => (none, some "rpc error: code = Unavailable desc = connection refused")
    currentTime := halfPastNoonUTC
    elapsedSeconds := fun _ _ => "0.500000" }

/-! ## Lemmas -/

/-! ### Lexicographic order on byte strings -/

theorem lt_append_of_lt {a b : List Char} (x y : List Char) (h : a < b)
    (hlen : a.length = b.length) : a ++ x < b ++ y := by
  induction h with
  | nil => simp at hlen
  | rel hab => exact List.Lex.rel hab
  | cons _ ih => exact List.Lex.cons (ih (by simpa using hlen))

theorem append_lt_append_left (a : List Char) {x y : List Char} (h : x < y) :
    a ++ x < a ++ y := by
  induction a with
  | nil => exact h
  | cons c a ih => exact List.Lex.cons ih

theorem cons_lt_cons (c : Char) {x y : List Char} (h : x < y) : c :: x < c :: y :=
  append_lt_append_left [c] h

/-! ### Decimal digits -/

theorem digitChar_lt : ∀ b < 10, ∀ a < b, digitChar a < digitChar b := by decide

theorem digitChar_ge : ∀ a < 10, '0' ≤ digitChar a := by decide

theorem digitChar_ne_zero : ∀ a < 10, 0 < a → digitChar a ≠ '0' := by decide

theorem digitChar_isDigit : ∀ a < 10, (digitChar a).isDigit = true := by decide

theorem fixedDigits_length (w u : Nat) : (fixedDigits w u).length = w := by
  induction w generalizing u with
  | zero => rfl
  | succ w ih => simp [fixedDigits, ih]

theorem fixedDigits_zero (w : Nat) : fixedDigits w 0 = List.replicate w '0' := by
  induction w with
  | zero => rfl
  | succ w ih =>
    rw [fixedDigits, Nat.zero_div, ih, List.replicate_succ']
    rfl

theorem fixedDigits_lt (w : Nat) {u v : Nat} (h : u < v) (hv : v < 10 ^ w) :
    fixedDigits w u < fixedDigits w v := by
  induction w generalizing u v with
  | zero => simp at hv; omega
  | succ w ih =>
    simp only [fixedDigits]
    have hv' : v / 10 < 10 ^ w := by
      rw [Nat.pow_succ] at hv
      omega
    rcases Nat.lt_or_ge (u / 10) (v / 10) with hlt | hge
    · exact lt_append_of_lt _ _ (ih hlt hv') (by simp [fixedDigits_length])
    · have heq : u / 10 = v / 10 := by omega
      rw [heq]
      exact append_lt_append_left _
        (List.Lex.rel (digitChar_lt (v % 10) (by omega) (u % 10) (by omega)))

theorem fixedDigits_ge (w u : Nat) : ∀ c ∈ fixedDigits w u, '0' ≤ c := by
  induction w generalizing u with
  | zero => simp [fixedDigits]
  | succ w ih =>
    intro c hc
    simp only [fixedDigits, List.mem_append, List.mem_singleton] at hc
    rcases hc with hc | hc
    · exact ih _ c hc
    · rw [hc]; exact digitChar_ge _ (by omega)

theorem fixedDigits_isDigit (w u : Nat) : ∀ c ∈ fixedDigits w u, c.isDigit = true := by
  induction w generalizing u with
  | zero => simp [fixedDigits]
  | succ w ih =>
    intro c hc
    simp only [fixedDigits, List.mem_append, List.mem_singleton] at hc
    rcases hc with hc | hc
    · exact ih _ c hc
    · rw [hc]; exact digitChar_isDigit _ (by omega)

theorem decimalDigits_pad (w : Nat) : ∀ room u : Nat, 1 ≤ w → w ≤ room + 1 → u < 10 ^ w →
    List.replicate (w - (decimalDigits room u).length) '0' ++ decimalDigits room u =
      fixedDigits w u ∧ (decimalDigits room u).length ≤ w := by
  induction w with
  | zero => intro room u h; omega
  | succ w ih =>
    intro room u _ hroom hu
    rcases Nat.eq_zero_or_pos w with hw | hw
    · subst hw
      have hu10 : u < 10 := by simpa using hu
      have hd : decimalDigits room u = [digitChar u] := by
        cases room with
        | zero => simp [decimalDigits, Nat.mod_eq_of_lt hu10]
        | succ r => simp [decimalDigits, hu10]
      rw [hd]
      simp [fixedDigits, Nat.mod_eq_of_lt hu10]
    · obtain ⟨r, rfl⟩ : ∃ r, room = r + 1 := ⟨room - 1, by omega⟩
      by_cases hu10 : u < 10
      · have hd : decimalDigits (r + 1) u = [digitChar u] := by simp [decimalDigits, hu10]
        rw [hd]
        have h0 : u / 10 = 0 := by omega
        simp [fixedDigits, h0, fixedDigits_zero, Nat.mod_eq_of_lt hu10]
      · have hd : decimalDigits (r + 1) u = decimalDigits r (u / 10) ++ [digitChar (u % 10)] := by
          simp [decimalDigits, hu10]
        have hu' : u / 10 < 10 ^ w := by
          rw [Nat.pow_succ] at hu
          omega
        obtain ⟨h1, h2⟩ := ih r (u / 10) hw (by omega) hu'
        rw [hd]
        refine ⟨?_, by simp; omega⟩
        simp only [fixedDigits, List.length_append, List.length_singleton]
        rw [← h1, List.append_assoc]
        congr 2
        omega

theorem appendInt_ofNat (b : List Char) (u w : Nat) (hw : 1 ≤ w) (hw' : w ≤ 20)
    (hu : u < 10 ^ w) : appendInt b (u : Int) w = b ++ fixedDigits w u := by
  have h := (decimalDigits_pad w 19 u hw (by omega) hu).1
  simp only [appendInt, Int.natAbs_ofNat]
  rw [if_neg (by omega), List.append_assoc, h]


/-! ### The calendar -/

theorem absYearDay_cycles (d : Nat) :
    ∃ a b c e r3 : Nat, b ≤ 3 ∧ c ≤ 24 ∧ e ≤ 3 ∧ (b < 3 → c = 24 → r3 < 1460) ∧ r3 < 1461 ∧
      365 * e ≤ r3 ∧ (e < 3 → r3 < 365 * e + 365) ∧
      d = 146097 * a + 36524 * b + 1461 * c + r3 ∧
      absYearDay d = (400 * a + 100 * b + 4 * c + e, r3 - 365 * e) := by
  refine ⟨d / 146097,
    (d - 146097 * (d / 146097)) / 36524 - (d - 146097 * (d / 146097)) / 36524 / 4,
    (d - 146097 * (d / 146097) - 36524 * ((d - 146097 * (d / 146097)) / 36524 -
      (d - 146097 * (d / 146097)) / 36524 / 4)) / 1461, ?_, ?_, ?_⟩
  · exact (d - 146097 * (d / 146097) - 36524 * ((d - 146097 * (d / 146097)) / 36524 -
      (d - 146097 * (d / 146097)) / 36524 / 4) - 1461 * ((d - 146097 * (d / 146097) -
      36524 * ((d - 146097 * (d / 146097)) / 36524 -
      (d - 146097 * (d / 146097)) / 36524 / 4)) / 1461)) / 365 -
      (d - 146097 * (d / 146097) - 36524 * ((d - 146097 * (d / 146097)) / 36524 -
      (d - 146097 * (d / 146097)) / 36524 / 4) - 1461 * ((d - 146097 * (d / 146097) -
      36524 * ((d - 146097 * (d / 146097)) / 36524 -
      (d - 146097 * (d / 146097)) / 36524 / 4)) / 1461)) / 365 / 4
  · exact (d - 146097 * (d / 146097) - 36524 * ((d - 146097 * (d / 146097)) / 36524 -
      (d - 146097 * (d / 146097)) / 36524 / 4) - 1461 * ((d - 146097 * (d / 146097) -
      36524 * ((d - 146097 * (d / 146097)) / 36524 -
      (d - 146097 * (d / 146097)) / 36524 / 4)) / 1461))
  · refine ⟨by omega, by omega, by omega, by omega, by omega, by omega, by omega, by omega, ?_⟩
    rfl

theorem absYearDay_spec (d : Nat) :
    d = daysSinceZero (absYearDay d).1 + (absYearDay d).2 ∧
      (absYearDay d).2 < 366 ∧
      (¬ leapAfterZero (absYearDay d).1 → (absYearDay d).2 < 365) := by
  obtain ⟨a, b, c, e, r3, hb, hc, he, h1, h2, h3, h4, hd, hy⟩ := absYearDay_cycles d
  rw [hy]
  simp only [daysSinceZero, leapAfterZero]
  subst hd
  interval_cases b <;> interval_cases e <;> omega

theorem daysSinceZero_succ (y : Nat) :
    daysSinceZero y + 365 ≤ daysSinceZero (y + 1) ∧
      (leapAfterZero y → daysSinceZero y + 366 ≤ daysSinceZero (y + 1)) := by
  unfold daysSinceZero leapAfterZero
  omega

theorem daysSinceZero_mono {y z : Nat} (h : y ≤ z) : daysSinceZero y ≤ daysSinceZero z := by
  have h4 : y / 4 ≤ z / 4 := Nat.div_le_div_right h
  have h400 : y / 400 ≤ z / 400 := Nat.div_le_div_right h
  unfold daysSinceZero
  omega

theorem absYearDay_mono {d1 d2 : Nat} (h : d1 ≤ d2) :
    (absYearDay d1).1 < (absYearDay d2).1 ∨
      ((absYearDay d1).1 = (absYearDay d2).1 ∧ (absYearDay d1).2 ≤ (absYearDay d2).2) := by
  obtain ⟨e1, l1, m1⟩ := absYearDay_spec d1
  obtain ⟨e2, l2, m2⟩ := absYearDay_spec d2
  rcases Nat.lt_trichotomy (absYearDay d1).1 (absYearDay d2).1 with hlt | heq | hgt
  · exact Or.inl hlt
  · right
    refine ⟨heq, ?_⟩
    rw [heq] at e1
    omega
  · exfalso
    have h1 := daysSinceZero_mono (Nat.succ_le_of_lt hgt)
    obtain ⟨h2, h3⟩ := daysSinceZero_succ (absYearDay d2).1
    simp only [Nat.succ_eq_add_one] at h1
    by_cases hl : leapAfterZero (absYearDay d2).1
    · have := h3 hl
      omega
    · have := m2 hl
      omega

theorem isLeap_iff (y : Nat) :
    isLeap ((y : Int) + absoluteZeroYear) = true ↔ leapAfterZero y := by
  simp only [isLeap, leapAfterZero, absoluteZeroYear, Bool.and_eq_true, Bool.or_eq_true,
    beq_iff_eq, bne_iff_ne, ne_eq]
  omega

set_option maxRecDepth 100000 in
theorem monthDay_range : ∀ leap : Bool, ∀ yd < 366, (leap = false → yd < 365) →
    1 ≤ (monthDay leap yd).1 ∧ (monthDay leap yd).1 ≤ 12 ∧
      1 ≤ (monthDay leap yd).2 ∧ (monthDay leap yd).2 ≤ 31 := by
  decide

set_option maxRecDepth 100000 in
theorem monthDay_step : ∀ leap : Bool, ∀ yd < 365,
    dateKey (monthDay leap yd) < dateKey (monthDay leap (yd + 1)) := by
  decide

theorem monthDay_lt (leap : Bool) {yd1 yd2 : Nat} (h : yd1 < yd2) (h2 : yd2 < 366) :
    dateKey (monthDay leap yd1) < dateKey (monthDay leap yd2) := by
  induction yd2 with
  | zero => omega
  | succ n ih =>
    have hstep := monthDay_step leap n (by omega)
    rcases Nat.lt_or_ge yd1 n with hlt | hge
    · exact Nat.lt_trans (ih hlt (by omega)) hstep
    · have : yd1 = n := by omega
      rw [this]
      exact hstep

/-! ### Trimming trailing zeros -/

theorem trimTrailingZeros_cons (c : Char) (l : List Char) :
    trimTrailingZeros (c :: l) =
      if trimTrailingZeros l = [] ∧ c = '0' then [] else c :: trimTrailingZeros l := by
  simp only [trimTrailingZeros, List.reverse_cons, List.dropWhile_append]
  by_cases h : (List.dropWhile (fun c => c == '0') l.reverse) = []
  · by_cases hc : c = '0'
    · simp [h, hc]
    · simp [h, hc]
  · have h' : (List.dropWhile (fun c => c == '0') l.reverse).isEmpty = false := by
      cases hd : List.dropWhile (fun c => c == '0') l.reverse with
      | nil => exact absurd hd h
      | cons a as => rfl
    simp [h, h']

theorem trimTrailingZeros_nil : trimTrailingZeros [] = [] := rfl

theorem trimTrailingZeros_ne_nil {l : List Char} (c : Char) (hc : c ∈ l) (h0 : c ≠ '0') :
    trimTrailingZeros l ≠ [] := by
  induction l with
  | nil => simp at hc
  | cons a l ih =>
    rw [trimTrailingZeros_cons]
    rcases List.mem_cons.mp hc with rfl | hmem
    · simp [h0]
    · simp [ih hmem]

theorem mem_of_mem_trimTrailingZeros {l : List Char} {c : Char}
    (hc : c ∈ trimTrailingZeros l) : c ∈ l := by
  induction l with
  | nil => simp [trimTrailingZeros_nil] at hc
  | cons a l ih =>
    rw [trimTrailingZeros_cons] at hc
    split at hc
    · simp at hc
    · rcases List.mem_cons.mp hc with rfl | hmem
      · exact List.mem_cons_self _ _
      · exact List.mem_cons_of_mem _ (ih hmem)

theorem fixedDigits_exists_ne_zero (w : Nat) {u : Nat} (h0 : 0 < u) (hu : u < 10 ^ w) :
    ∃ c ∈ fixedDigits w u, c ≠ '0' := by
  induction w generalizing u with
  | zero => simp at hu; omega
  | succ w ih =>
    simp only [fixedDigits, List.mem_append, List.mem_singleton]
    by_cases hm : u % 10 = 0
    · have hu' : u / 10 < 10 ^ w := by
        rw [Nat.pow_succ] at hu
        omega
      obtain ⟨c, hc, hne⟩ := ih (u := u / 10) (by omega) hu'
      exact ⟨c, Or.inl hc, hne⟩
    · exact ⟨_, Or.inr rfl, digitChar_ne_zero _ (by omega) (by omega)⟩

/-- The text that `formatNano` appends for the nanoseconds `n`. -/
theorem formatNano_eq (b : List Char) {n : Nat} (hn : n < 1000000000) :
    formatNano b n =
      b ++ (if n = 0 then [] else '.' :: trimTrailingZeros (fixedDigits 9 n)) := by
  unfold formatNano
  by_cases h0 : n = 0
  · subst h0
    have hz : trimTrailingZeros (fixedDigits 9 0) = [] := by decide
    simp [hz]
  · obtain ⟨c, hc, hne⟩ := fixedDigits_exists_ne_zero 9 (u := n) (by omega) (by norm_num; omega)
    have htrim := trimTrailingZeros_ne_nil c hc hne
    simp [h0, htrim]

/-! ### The zone and the fraction -/

theorem appendInt_append (b : List Char) (x : Int) (w : Nat) :
    appendInt b x w = b ++ appendInt [] x w := by
  unfold appendInt
  split <;> simp

theorem appendInt_hours_minutes (b : List Char) (m : Nat) (hm : m < 1440) :
    appendInt (appendInt b (Int.tdiv (m : Int) 60) 2 ++ [':']) (Int.tmod (m : Int) 60) 2 =
      b ++ (fixedDigits 2 (m / 60) ++ ':' :: fixedDigits 2 (m % 60)) := by
  have hq : Int.tdiv (m : Int) 60 = ((m / 60 : Nat) : Int) := by
    rw [Int.tdiv_eq_ediv (by omega) (by omega)]
    omega
  have hr : Int.tmod (m : Int) 60 = ((m % 60 : Nat) : Int) := by
    rw [Int.tmod_eq_emod (by omega) (by omega)]
    omega
  rw [hq, hr, appendInt_ofNat _ (m / 60) 2 (by omega) (by omega) (by omega),
    appendInt_ofNat _ (m % 60) 2 (by omega) (by omega) (by omega)]
  simp

/-- The text that `appendZone` appends for a zone offset other than zero: a sign, then the
hours and the minutes of the offset in two digits each. -/
theorem appendZone_eq (b : List Char) {offset : Int} (h0 : offset ≠ 0)
    (hlo : -86400 < offset) (hhi : offset < 86400) :
    appendZone b offset =
      b ++ (if offset ≤ -60 then '-' else '+') ::
        (fixedDigits 2 (offset.natAbs / 60 / 60) ++
          ':' :: fixedDigits 2 (offset.natAbs / 60 % 60)) := by
  unfold appendZone
  rw [if_neg h0]
  rcases Int.lt_or_le offset 0 with hneg | hpos
  · obtain ⟨n, hn⟩ : ∃ n : Nat, offset = -(n : Int) := ⟨offset.natAbs, by omega⟩
    subst hn
    have hz : Int.tdiv (-(n : Int)) 60 = -((n / 60 : Nat) : Int) := by
      rw [Int.neg_tdiv, Int.tdiv_eq_ediv (by omega) (by omega)]
      omega
    simp only [hz, Int.natAbs_neg, Int.natAbs_ofNat, neg_neg]
    by_cases hlt : n < 60
    · have h60 : n / 60 = 0 := by omega
      have hz0 : ¬ (-(((n / 60 : Nat) : Int)) < 0) := by omega
      have hzz : -(((n / 60 : Nat) : Int)) = ((n / 60 : Nat) : Int) := by omega
      rw [if_neg hz0, if_neg (by omega)]
      simp only [hzz]
      rw [appendInt_hours_minutes _ _ (by omega)]
      simp
    · have hz0 : -(((n / 60 : Nat) : Int)) < 0 := by omega
      rw [if_pos hz0, if_pos (by omega)]
      simp only [neg_neg]
      rw [appendInt_hours_minutes _ _ (by omega)]
      simp
  · obtain ⟨n, hn⟩ : ∃ n : Nat, offset = (n : Int) := ⟨offset.natAbs, by omega⟩
    subst hn
    have hz : Int.tdiv (n : Int) 60 = ((n / 60 : Nat) : Int) := by
      rw [Int.tdiv_eq_ediv (by omega) (by omega)]
      omega
    have hz0 : ¬ (((n / 60 : Nat) : Int) < 0) := by omega
    simp only [hz, Int.natAbs_ofNat]
    rw [if_neg hz0, if_neg (by omega)]
    simp only []
    rw [appendInt_hours_minutes _ _ (by omega)]
    simp

theorem zero_lt_of_lt {x y : Char} (hx : '0' ≤ x) (h : x < y) : y ≠ '0' := by
  intro hy
  subst hy
  exact absurd (lt_of_le_of_lt hx h) (lt_irrefl _)

theorem trimTrailingZeros_ne_nil_of_lt {a b : List Char} (h : a < b)
    (hlen : a.length = b.length) (ha : ∀ x ∈ a, '0' ≤ x) : trimTrailingZeros b ≠ [] := by
  induction h with
  | nil => simp at hlen
  | rel hab =>
    exact trimTrailingZeros_ne_nil _ (List.mem_cons_self _ _)
      (zero_lt_of_lt (ha _ (List.mem_cons_self _ _)) hab)
  | cons _ ih =>
    rw [trimTrailingZeros_cons]
    have := ih (by simpa using hlen) (fun x hx => ha x (List.mem_cons_of_mem _ hx))
    simp [this]

/-- Trimmed digit strings of one length, each followed by a byte below `'0'`, are ordered as
the untrimmed digit strings are. -/
theorem trimTrailingZeros_append_lt (c : Char) (z : List Char) (hc : c < '0') {a b : List Char}
    (h : a < b) (hlen : a.length = b.length) (ha : ∀ x ∈ a, '0' ≤ x) (hb : ∀ x ∈ b, '0' ≤ x) :
    trimTrailingZeros a ++ c :: z < trimTrailingZeros b ++ c :: z := by
  induction h with
  | nil => simp at hlen
  | @rel x as y bs hab =>
    have hy : y ≠ '0' := zero_lt_of_lt (ha _ (List.mem_cons_self _ _)) hab
    rw [trimTrailingZeros_cons y, if_neg (by simp [hy]), trimTrailingZeros_cons x]
    split
    · exact List.Lex.rel (lt_of_lt_of_le hc (hb _ (List.mem_cons_self _ _)))
    · exact List.Lex.rel hab
  | @cons x as bs hlt ih =>
    have hbs : trimTrailingZeros bs ≠ [] :=
      trimTrailingZeros_ne_nil_of_lt hlt (by simpa using hlen)
        (fun x hx => ha x (List.mem_cons_of_mem _ hx))
    have ih' := ih (by simpa using hlen) (fun x hx => ha x (List.mem_cons_of_mem _ hx))
      (fun x hx => hb x (List.mem_cons_of_mem _ hx))
    rw [trimTrailingZeros_cons x bs, if_neg (by simp [hbs]), trimTrailingZeros_cons x as]
    split
    · exact List.Lex.rel (lt_of_lt_of_le hc (hb _ (List.mem_cons_self _ _)))
    · exact List.Lex.cons ih'

/-! ### The format in pieces -/

theorem absClock_lt (abs : Nat) :
    (absClock abs).1 < 24 ∧ (absClock abs).2.1 < 60 ∧ (absClock abs).2.2 < 60 := by
  simp only [absClock, secondsPerDay]
  omega

theorem absDate_range (abs : Nat) :
    1 ≤ (absDate abs).2.1 ∧ (absDate abs).2.1 ≤ 12 ∧
      1 ≤ (absDate abs).2.2 ∧ (absDate abs).2.2 ≤ 31 := by
  obtain ⟨_, h366, h365⟩ := absYearDay_spec (abs / secondsPerDay)
  simp only [absDate]
  apply monthDay_range _ _ h366
  intro hleap
  apply h365
  rw [← isLeap_iff]
  simp [hleap]

theorem AppendFormat_eq (t : Time) :
    t.AppendFormat [] layout =
      appendInt [] (absDate t.abs).1 4 ++ (monthToSecondText t.abs ++
        (fracText t.nsec ++ zoneText t.offset)) := by
  obtain ⟨hh, hm, hs⟩ := absClock_lt t.abs
  obtain ⟨_, hmo, _, hd⟩ := absDate_range t.abs
  have hzone : ∀ b, appendZone b t.offset = b ++ zoneText t.offset := by
    intro b
    by_cases h0 : t.offset = 0
    · simp [appendZone, zoneText, h0]
    · rw [appendZone_eq b h0 t.offset_gt t.offset_lt]
      simp [zoneText, h0]
  simp only [Time.AppendFormat, layout, List.foldl, appendChunk]
  rw [hzone, formatNano_eq _ t.nsec_lt,
    appendInt_ofNat _ (absClock t.abs).2.2 2 (by omega) (by omega) (by omega),
    appendInt_ofNat _ (absClock t.abs).2.1 2 (by omega) (by omega) (by omega),
    appendInt_ofNat _ (absClock t.abs).1 2 (by omega) (by omega) (by omega),
    appendInt_ofNat _ (absDate t.abs).2.2 2 (by omega) (by omega) (by omega),
    appendInt_ofNat _ (absDate t.abs).2.1 2 (by omega) (by omega) (by omega)]
  simp [monthToSecondText, fracText]

/-! ### Order of the date and time -/

theorem daysSinceZero_yearZero : daysSinceZero yearsToYearZero = 106751990353566 := by
  norm_num [daysSinceZero, yearsToYearZero]

theorem daysSinceZero_yearTenThousand :
    daysSinceZero (yearsToYearZero + 10000) = 106751994005991 := by
  norm_num [daysSinceZero, yearsToYearZero]

theorem absYearDay_year_range {abs : Nat} (h1 : absYearZero ≤ abs)
    (h2 : abs < absYearTenThousand) :
    yearsToYearZero ≤ (absYearDay (abs / secondsPerDay)).1 ∧
      (absYearDay (abs / secondsPerDay)).1 ≤ yearsToYearZero + 9999 := by
  obtain ⟨hd, h366, h365⟩ := absYearDay_spec (abs / secondsPerDay)
  simp only [absYearZero, absYearTenThousand, secondsPerDay] at *
  constructor
  · by_contra hlt
    have hmono := daysSinceZero_mono (y := (absYearDay (abs / 86400)).1 + 1)
      (z := yearsToYearZero) (by omega)
    rw [daysSinceZero_yearZero] at hmono
    obtain ⟨hs1, hs2⟩ := daysSinceZero_succ (absYearDay (abs / 86400)).1
    by_cases hl : leapAfterZero (absYearDay (abs / 86400)).1
    · have := hs2 hl
      omega
    · have := h365 hl
      omega
  · by_contra hgt
    have hmono := daysSinceZero_mono (y := yearsToYearZero + 10000)
      (z := (absYearDay (abs / 86400)).1) (by omega)
    rw [daysSinceZero_yearTenThousand] at hmono
    omega

theorem absDate_year {abs : Nat} (h1 : absYearZero ≤ abs) (h2 : abs < absYearTenThousand) :
    (absDate abs).1 =
      (((absYearDay (abs / secondsPerDay)).1 - yearsToYearZero : Nat) : Int) := by
  obtain ⟨hlo, hhi⟩ := absYearDay_year_range h1 h2
  simp only [absDate, absoluteZeroYear, yearsToYearZero] at *
  omega

theorem year_lt {abs : Nat} (h1 : absYearZero ≤ abs) (h2 : abs < absYearTenThousand) :
    (absYearDay (abs / secondsPerDay)).1 - yearsToYearZero < 10 ^ 4 := by
  obtain ⟨hlo, hhi⟩ := absYearDay_year_range h1 h2
  norm_num
  omega

theorem appendInt_year {abs : Nat} (h1 : absYearZero ≤ abs) (h2 : abs < absYearTenThousand) :
    appendInt [] (absDate abs).1 4 =
      fixedDigits 4 ((absYearDay (abs / secondsPerDay)).1 - yearsToYearZero) := by
  rw [absDate_year h1 h2,
    appendInt_ofNat [] ((absYearDay (abs / secondsPerDay)).1 - yearsToYearZero) 4
      (by omega) (by omega) (year_lt h1 h2), List.nil_append]

theorem field_lt (w : Nat) {u v : Nat} (x y : List Char) (hv : v < 10 ^ w)
    (h : u < v ∨ (u = v ∧ x < y)) : fixedDigits w u ++ x < fixedDigits w v ++ y := by
  rcases h with h | ⟨rfl, h⟩
  · exact lt_append_of_lt _ _ (fixedDigits_lt w h hv) (by simp [fixedDigits_length])
  · exact append_lt_append_left _ h

theorem absClock_lex {a1 a2 : Nat} (h : a1 % secondsPerDay < a2 % secondsPerDay) :
    (absClock a1).1 < (absClock a2).1 ∨ ((absClock a1).1 = (absClock a2).1 ∧
      ((absClock a1).2.1 < (absClock a2).2.1 ∨ ((absClock a1).2.1 = (absClock a2).2.1 ∧
        (absClock a1).2.2 < (absClock a2).2.2))) := by
  simp only [absClock, secondsPerDay] at *
  omega

theorem clockText_lt {a1 a2 : Nat} (h : a1 % secondsPerDay < a2 % secondsPerDay) :
    fixedDigits 2 (absClock a1).1 ++ ':' :: (fixedDigits 2 (absClock a1).2.1 ++
        ':' :: fixedDigits 2 (absClock a1).2.2) <
      fixedDigits 2 (absClock a2).1 ++ ':' :: (fixedDigits 2 (absClock a2).2.1 ++
        ':' :: fixedDigits 2 (absClock a2).2.2) := by
  obtain ⟨hh, hm, hs⟩ := absClock_lt a2
  apply field_lt 2 _ _ (by omega)
  rcases absClock_lex h with h1 | ⟨h1, h2⟩
  · exact Or.inl h1
  · refine Or.inr ⟨h1, cons_lt_cons _ (field_lt 2 _ _ (by omega) ?_)⟩
    rcases h2 with h2 | ⟨h2, h3⟩
    · exact Or.inl h2
    · refine Or.inr ⟨h2, cons_lt_cons _ ?_⟩
      have := field_lt 2 [] [] (by omega : (absClock a2).2.2 < 10 ^ 2) (Or.inl h3)
      simpa using this

/-- Within the years 0000 to 9999 the date and time of day, printed with a year of four
digits, are ordered as the absolute times are. -/
theorem dateTime_lt {a1 a2 : Nat} (h : a1 < a2) (h1 : absYearZero ≤ a1)
    (h2 : a2 < absYearTenThousand) :
    fixedDigits 4 ((absYearDay (a1 / secondsPerDay)).1 - yearsToYearZero) ++
        monthToSecondText a1 <
      fixedDigits 4 ((absYearDay (a2 / secondsPerDay)).1 - yearsToYearZero) ++
        monthToSecondText a2 := by
  obtain ⟨hlo1, hhi1⟩ := absYearDay_year_range h1 (Nat.lt_trans h h2)
  obtain ⟨hlo2, hhi2⟩ := absYearDay_year_range (Nat.le_trans h1 (Nat.le_of_lt h)) h2
  obtain ⟨_, hmo2, _, hd2⟩ := absDate_range a2
  obtain ⟨_, hmo1, _, hd1⟩ := absDate_range a1
  apply field_lt 4 _ _ (year_lt (Nat.le_trans h1 (Nat.le_of_lt h)) h2)
  rcases Nat.lt_or_ge (a1 / secondsPerDay) (a2 / secondsPerDay) with hD | hD
  · -- a later day
    obtain ⟨e1, l1, _⟩ := absYearDay_spec (a1 / secondsPerDay)
    obtain ⟨e2, l2, _⟩ := absYearDay_spec (a2 / secondsPerDay)
    rcases absYearDay_mono (Nat.le_of_lt hD) with hy | ⟨hy, hyd⟩
    · exact Or.inl (by omega)
    · refine Or.inr ⟨by omega, ?_⟩
      have hyd' : (absYearDay (a1 / secondsPerDay)).2 < (absYearDay (a2 / secondsPerDay)).2 := by
        rw [hy] at e1
        omega
      have hkey := monthDay_lt
        (isLeap (((absYearDay (a2 / secondsPerDay)).1 : Int) + absoluteZeroYear)) hyd' l2
      have hm1 : (absDate a1).2 = monthDay
          (isLeap (((absYearDay (a2 / secondsPerDay)).1 : Int) + absoluteZeroYear))
          (absYearDay (a1 / secondsPerDay)).2 := by
        simp only [absDate, hy]
      have hm2 : (absDate a2).2 = monthDay
          (isLeap (((absYearDay (a2 / secondsPerDay)).1 : Int) + absoluteZeroYear))
          (absYearDay (a2 / secondsPerDay)).2 := by
        simp only [absDate]
      rw [← hm1, ← hm2] at hkey
      simp only [dateKey] at hkey
      unfold monthToSecondText
      refine cons_lt_cons _ (field_lt 2 _ _ (by omega) ?_)
      by_cases hmeq : (absDate a1).2.1 = (absDate a2).2.1
      · refine Or.inr ⟨hmeq, cons_lt_cons _ (field_lt 2 _ _ (by omega) (Or.inl ?_))⟩
        omega
      · exact Or.inl (by omega)
  · -- the same day
    have hDeq : a1 / secondsPerDay = a2 / secondsPerDay :=
      Nat.le_antisymm (Nat.div_le_div_right (Nat.le_of_lt h)) hD
    have hdate : absDate a1 = absDate a2 := by simp only [absDate, hDeq]
    have hsec : a1 % secondsPerDay < a2 % secondsPerDay := by
      simp only [secondsPerDay] at *
      omega
    refine Or.inr ⟨by rw [hDeq], ?_⟩
    unfold monthToSecondText
    rw [hdate]
    exact cons_lt_cons _ (append_lt_append_left _ (cons_lt_cons _
      (append_lt_append_left _ (cons_lt_cons _ (clockText_lt hsec)))))

theorem monthToSecondText_length (abs : Nat) : (monthToSecondText abs).length = 15 := by
  simp [monthToSecondText, fixedDigits_length]

/-! ### Order of the formatted text -/

theorem abs_of_inYearRange {t : Time} (h : t.inYearRange) :
    (t.abs : Int) = t.sec + t.offset + unixToAbsolute ∧
      absYearZero ≤ t.abs ∧ t.abs < absYearTenThousand := by
  simp only [Time.inYearRange, Time.abs, unixToAbsolute, absYearZero, absYearTenThousand] at *
  omega

theorem zoneText_cons {offset : Int} (h0 : offset ≠ 0) :
    ∃ c z, zoneText offset = c :: z ∧ c < '0' ∧ c < '.' := by
  unfold zoneText
  rw [if_neg h0]
  by_cases h : offset ≤ -60
  · exact ⟨'-', _, by rw [if_pos h], by decide, by decide⟩
  · exact ⟨'+', _, by rw [if_neg h], by decide, by decide⟩

theorem fracText_zoneText_lt {n1 n2 : Nat} (h : n1 < n2) (hn : n2 < 1000000000)
    {offset : Int} (h0 : offset ≠ 0) :
    fracText n1 ++ zoneText offset < fracText n2 ++ zoneText offset := by
  obtain ⟨c, z, hz, hc0, hcdot⟩ := zoneText_cons h0
  rw [hz]
  unfold fracText
  rw [if_neg (by omega : ¬ n2 = 0)]
  by_cases h1 : n1 = 0
  · rw [if_pos h1]
    exact List.Lex.rel hcdot
  · rw [if_neg h1]
    exact List.Lex.cons (trimTrailingZeros_append_lt c z hc0
      (fixedDigits_lt 9 h (by norm_num; omega))
      (by simp [fixedDigits_length]) (fixedDigits_ge 9 n1) (fixedDigits_ge 9 n2))

theorem Format_toList {t : Time} (h : t.inYearRange) :
    t.Format.toList =
      (fixedDigits 4 ((absYearDay (t.abs / secondsPerDay)).1 - yearsToYearZero) ++
        monthToSecondText t.abs) ++ (fracText t.nsec ++ zoneText t.offset) := by
  obtain ⟨_, hlo, hhi⟩ := abs_of_inYearRange h
  simp only [Time.Format, String.toList]
  rw [AppendFormat_eq, appendInt_year hlo hhi, List.append_assoc]

/-! ### The formatted text is a timestamp -/

theorem digitChar_toNat : ∀ a < 10, (digitChar a).toNat = 48 + a := by decide

theorem decimalDigits_isDigit (room u : Nat) : ∀ c ∈ decimalDigits room u, c.isDigit = true := by
  induction room generalizing u with
  | zero =>
    intro c hc
    simp only [decimalDigits, List.mem_singleton] at hc
    rw [hc]
    exact digitChar_isDigit _ (by omega)
  | succ room ih =>
    intro c hc
    simp only [decimalDigits] at hc
    split at hc
    · simp only [List.mem_singleton] at hc
      rw [hc]
      exact digitChar_isDigit _ (by omega)
    · simp only [List.mem_append, List.mem_singleton] at hc
      rcases hc with hc | hc
      · exact ih _ c hc
      · rw [hc]
        exact digitChar_isDigit _ (by omega)

theorem skipDigits_append {ds rest : List Char} (hds : ∀ c ∈ ds, c.isDigit = true)
    (hrest : skipDigits rest = (0, rest)) : skipDigits (ds ++ rest) = (ds.length, rest) := by
  induction ds with
  | nil => simpa using hrest
  | cons d ds ih =>
    have hd := hds d (List.mem_cons_self _ _)
    have := ih (fun c hc => hds c (List.mem_cons_of_mem _ hc))
    simp [skipDigits, hd, this]

theorem skipDigits_cons_of_not_isDigit {c : Char} (rest : List Char) (hc : c.isDigit = false) :
    skipDigits (c :: rest) = (0, c :: rest) := by
  simp [skipDigits, hc]

theorem twoDigitField_fixedDigits {lo hi v : Nat} (rest : List Char) (hlo : lo ≤ v)
    (hhi : v ≤ hi) (hv : v < 100) :
    twoDigitField lo hi (fixedDigits 2 v ++ rest) = some rest := by
  have h1 := digitChar_isDigit (v / 10 % 10) (by omega)
  have h2 := digitChar_isDigit (v % 10) (by omega)
  have h3 := digitChar_toNat (v / 10 % 10) (by omega)
  have h4 := digitChar_toNat (v % 10) (by omega)
  simp only [fixedDigits, List.nil_append, List.singleton_append, List.cons_append,
    twoDigitField]
  rw [if_pos]
  refine ⟨h1, h2, ?_, ?_⟩ <;> omega

theorem length_trimTrailingZeros_le (l : List Char) :
    (trimTrailingZeros l).length ≤ l.length := by
  induction l with
  | nil => simp [trimTrailingZeros_nil]
  | cons c l ih =>
    rw [trimTrailingZeros_cons]
    split
    · simp
    · simpa using ih

theorem zoneText_not_digit (offset : Int) :
    ∃ c z, zoneText offset = c :: z ∧ c.isDigit = false ∧ c ≠ '.' := by
  unfold zoneText
  by_cases h0 : offset = 0
  · exact ⟨'Z', [], by rw [if_pos h0], by decide, by decide⟩
  · rw [if_neg h0]
    by_cases h : offset ≤ -60
    · exact ⟨'-', _, by rw [if_pos h], by decide, by decide⟩
    · exact ⟨'+', _, by rw [if_neg h], by decide, by decide⟩

theorem fractionField_fracText {n : Nat} (hn : n < 1000000000) (offset : Int) :
    fractionField (fracText n ++ zoneText offset) = some (zoneText offset) := by
  obtain ⟨c, z, hz, hc, hdot⟩ := zoneText_not_digit offset
  unfold fracText
  by_cases h0 : n = 0
  · rw [if_pos h0, hz]
    simp [fractionField, hdot]
  · rw [if_neg h0]
    obtain ⟨d, hd, hne⟩ := fixedDigits_exists_ne_zero 9 (u := n) (by omega) (by norm_num; omega)
    have hnil := trimTrailingZeros_ne_nil d hd hne
    have hlen := length_trimTrailingZeros_le (fixedDigits 9 n)
    rw [fixedDigits_length] at hlen
    have hpos : 1 ≤ (trimTrailingZeros (fixedDigits 9 n)).length := by
      cases hl : trimTrailingZeros (fixedDigits 9 n) with
      | nil => exact absurd hl hnil
      | cons a as => simp
    have hskip : skipDigits (trimTrailingZeros (fixedDigits 9 n) ++ zoneText offset) =
        ((trimTrailingZeros (fixedDigits 9 n)).length, zoneText offset) := by
      apply skipDigits_append
      · intro x hx
        exact fixedDigits_isDigit 9 n x (mem_of_mem_trimTrailingZeros hx)
      · rw [hz]
        exact skipDigits_cons_of_not_isDigit _ hc
    simp only [List.cons_append, fractionField, if_true, hskip]
    rw [if_pos ⟨hpos, hlen⟩]

theorem zoneField_zoneText {offset : Int} (hlo : -86400 < offset) (hhi : offset < 86400) :
    zoneField (zoneText offset) = some [] := by
  unfold zoneText
  by_cases h0 : offset = 0
  · rw [if_pos h0]
    simp [zoneField]
  · rw [if_neg h0]
    have hfield : ((twoDigitField 0 23 (fixedDigits 2 (offset.natAbs / 60 / 60) ++
        ':' :: fixedDigits 2 (offset.natAbs / 60 % 60))).bind (expectByte ':')).bind
          (twoDigitField 0 59) = some [] := by
      rw [twoDigitField_fixedDigits _ (by omega) (by omega) (by omega)]
      have := @twoDigitField_fixedDigits 0 59 (offset.natAbs / 60 % 60) []
        (by omega) (by omega) (by omega)
      simpa [expectByte] using this
    by_cases h : offset ≤ -60
    · rw [if_pos h]
      simp only [zoneField]
      rw [if_neg (by decide), if_pos (by decide), hfield]
    · rw [if_neg h]
      simp only [zoneField]
      rw [if_neg (by decide), if_pos (by decide), hfield]

theorem Format_ne_empty (t : Time) : t.Format ≠ "" := by
  intro h
  have hd : t.Format.data = [] := by rw [h]
  simp only [Time.Format] at hd
  rw [AppendFormat_eq] at hd
  obtain ⟨c, z, hz, _⟩ := zoneText_not_digit t.offset
  rw [hz] at hd
  simp at hd

/-! ### Order of the formatted text in UTC -/

theorem lt_of_not_prefix {c : Char} {a b : List Char} (ha : ∀ x ∈ a, c < x)
    (h : a ++ [c] < b ++ [c]) (hp : ¬ a <+: b) (z z2 : List Char) : a ++ z < b ++ z2 := by
  induction a generalizing b with
  | nil => exact absurd (List.nil_prefix) hp
  | cons x a ih =>
    have hx := ha x (List.mem_cons_self _ _)
    cases b with
    | nil =>
      simp only [List.cons_append, List.nil_append] at h
      cases h with
      | cons h2 => exact absurd hx (lt_irrefl _)
      | rel hxc => exact absurd (lt_trans hx hxc) (lt_irrefl _)
    | cons y b =>
      simp only [List.cons_append] at h ⊢
      cases h with
      | cons h2 =>
        refine List.Lex.cons (ih (fun w hw => ha w (List.mem_cons_of_mem _ hw)) h2 ?_)
        intro hpre
        exact hp ((List.cons_prefix_cons).mpr ⟨rfl, hpre⟩)
      | rel hxy => exact List.Lex.rel hxy

theorem gt_of_prefix {c e : Char} {a b : List Char} (hb : ∀ x ∈ b, x < e)
    (h : a ++ [c] < b ++ [c]) (hp : a <+: b) (z : List Char) : b ++ e :: z < a ++ e :: z := by
  obtain ⟨r, rfl⟩ := hp
  cases r with
  | nil =>
    simp only [List.append_nil] at h
    exact absurd h (lt_irrefl _)
  | cons d r =>
    rw [List.append_assoc]
    exact append_lt_append_left _
      (List.Lex.rel (hb d (List.mem_append_right _ (List.mem_cons_self _ _))))

theorem digitChar_lt_Z : ∀ a < 10, digitChar a < 'Z' := by decide

theorem fixedDigits_lt_Z (w u : Nat) : ∀ c ∈ fixedDigits w u, c < 'Z' := by
  induction w generalizing u with
  | zero => simp [fixedDigits]
  | succ w ih =>
    intro c hc
    simp only [fixedDigits, List.mem_append, List.mem_singleton] at hc
    rcases hc with hc | hc
    · exact ih _ c hc
    · rw [hc]; exact digitChar_lt_Z _ (by omega)

/-- In UTC, the fractions of two readings of one second, the first with fewer nanoseconds,
are in order before the `Z` exactly when the first is not a piece at the front of the
second. -/
theorem fracText_Z_le_iff {n1 n2 : Nat} (h : n1 < n2) (hn : n2 < 1000000000) :
    fracText n1 ++ ['Z'] ≤ fracText n2 ++ ['Z'] ↔ ¬ fracText n1 <+: fracText n2 := by
  have h2 : ¬ n2 = 0 := by omega
  unfold fracText
  rw [if_neg h2]
  by_cases h1 : n1 = 0
  · rw [if_pos h1]
    constructor
    · intro hle
      exact absurd hle (not_le.mpr (List.Lex.rel (by decide)))
    · intro hp
      exact absurd List.nil_prefix hp
  · rw [if_neg h1]
    have hlt : trimTrailingZeros (fixedDigits 9 n1) ++ ['-'] <
        trimTrailingZeros (fixedDigits 9 n2) ++ ['-'] :=
      trimTrailingZeros_append_lt '-' [] (by decide)
        (fixedDigits_lt 9 h (by norm_num; omega))
        (by simp [fixedDigits_length]) (fixedDigits_ge 9 n1) (fixedDigits_ge 9 n2)
    have hge : ∀ x ∈ trimTrailingZeros (fixedDigits 9 n1), '-' < x := fun x hx =>
      lt_of_lt_of_le (by decide) (fixedDigits_ge 9 n1 x (mem_of_mem_trimTrailingZeros hx))
    have hltZ : ∀ x ∈ trimTrailingZeros (fixedDigits 9 n2), x < 'Z' := fun x hx =>
      fixedDigits_lt_Z 9 n2 x (mem_of_mem_trimTrailingZeros hx)
    by_cases hp : trimTrailingZeros (fixedDigits 9 n1) <+: trimTrailingZeros (fixedDigits 9 n2)
    · have hgt := gt_of_prefix hltZ hlt hp []
      constructor
      · intro hle
        exact absurd hle (not_le.mpr (List.Lex.cons hgt))
      · intro hnp
        exact absurd ((List.cons_prefix_cons).mpr ⟨rfl, hp⟩) hnp
    · have hlt2 := lt_of_not_prefix hge hlt hp ['Z'] ['Z']
      constructor
      · intro _ hpre
        exact hp ((List.cons_prefix_cons).mp hpre).2
      · intro _
        exact le_of_lt (List.Lex.cons hlt2)

theorem formatNano_nil {n : Nat} (hn : n < 1000000000) : formatNano [] n = fracText n := by
  rw [formatNano_eq [] hn, List.nil_append]
  rfl

/-- Within the years 0000 to 9999 and with one zone offset, the formatted text of a reading
that is not later is not greater, except in one case only: in UTC, for two readings of one
second with different nanoseconds, when the fraction printed for the first (nothing at all
for no nanoseconds) is a piece at the front of the fraction printed for the second. -/
theorem Format_le_iff {t1 t2 : Time} (hle : t1.notAfter t2) (hzone : t1.offset = t2.offset)
    (h1 : t1.inYearRange) (h2 : t2.inYearRange) :
    t1.Format ≤ t2.Format ↔
      ¬ (t1.offset = 0 ∧ t1.sec = t2.sec ∧ t1.nsec < t2.nsec ∧
        formatNano [] t1.nsec <+: formatNano [] t2.nsec) := by
  rw [String.le_iff_toList_le, Format_toList h1, Format_toList h2,
    formatNano_nil t1.nsec_lt, formatNano_nil t2.nsec_lt]
  obtain ⟨ha1, hlo1, hhi1⟩ := abs_of_inYearRange h1
  obtain ⟨ha2, hlo2, hhi2⟩ := abs_of_inYearRange h2
  rcases hle with hsec | ⟨hsec, hnsec⟩
  · have habs : t1.abs < t2.abs := by omega
    constructor
    · intro _ hex
      omega
    · intro _
      exact le_of_lt (lt_append_of_lt _ _ (dateTime_lt habs hlo1 hhi2)
        (by simp [fixedDigits_length, monthToSecondText_length]))
  · have habs : t1.abs = t2.abs := by omega
    rw [habs, ← hzone]
    rcases Nat.lt_or_ge t1.nsec t2.nsec with hlt | hge
    · by_cases hnz : t1.offset = 0
      · have hZ : zoneText t1.offset = ['Z'] := by simp [zoneText, hnz]
        rw [hZ]
        constructor
        · intro hle hex
          have := (fracText_Z_le_iff hlt t2.nsec_lt).mp
            (le_of_not_lt fun hc => absurd hle (not_le.mpr (append_lt_append_left _ hc)))
          exact this hex.2.2.2
        · intro hex
          have hnp : ¬ fracText t1.nsec <+: fracText t2.nsec := fun hp =>
            hex ⟨hnz, hsec, hlt, hp⟩
          have := (fracText_Z_le_iff hlt t2.nsec_lt).mpr hnp
          rcases lt_or_eq_of_le this with hl | he
          · exact le_of_lt (append_lt_append_left _ hl)
          · rw [he]
      · constructor
        · intro _ hex
          exact hnz hex.1
        · intro _
          exact le_of_lt (append_lt_append_left _ (fracText_zoneText_lt hlt t2.nsec_lt hnz))
    · have heq : t1.nsec = t2.nsec := by omega
      rw [heq]
      constructor
      · intro _ hex
        omega
      · intro _
        exact le_refl _

/-! ### The formatted text is a valid timestamp exactly in the years 0000 to 9999 -/

theorem isLeap_natCast (y : Nat) : isLeap (y : Int) = leapYear y := by
  rw [Bool.eq_iff_iff]
  simp only [isLeap, leapYear, Bool.and_eq_true, Bool.or_eq_true, beq_iff_eq, bne_iff_ne, ne_eq]
  omega

set_option maxRecDepth 100000 in
theorem monthDay_le_daysInMonth : ∀ leap : Bool, ∀ yd < 366, (leap = false → yd < 365) →
    (monthDay leap yd).2 ≤ daysInMonth leap (monthDay leap yd).1 := by
  decide

theorem dateField_fixedDigits {y m d : Nat} (rest : List Char) (hy : y < 10000)
    (hm1 : 1 ≤ m) (hm : m ≤ 12) (hd1 : 1 ≤ d) (hd : d ≤ daysInMonth (leapYear y) m)
    (hd31 : d ≤ 31) :
    dateField (fixedDigits 4 y ++ '-' :: (fixedDigits 2 m ++ '-' :: (fixedDigits 2 d ++ rest))) =
      some rest := by
  have y1 := digitChar_isDigit (y / 10 / 10 / 10 % 10) (by omega)
  have y2 := digitChar_isDigit (y / 10 / 10 % 10) (by omega)
  have y3 := digitChar_isDigit (y / 10 % 10) (by omega)
  have y4 := digitChar_isDigit (y % 10) (by omega)
  have m1 := digitChar_isDigit (m / 10 % 10) (by omega)
  have m2 := digitChar_isDigit (m % 10) (by omega)
  have d1 := digitChar_isDigit (d / 10 % 10) (by omega)
  have d2 := digitChar_isDigit (d % 10) (by omega)
  have vy1 := digitChar_toNat (y / 10 / 10 / 10 % 10) (by omega)
  have vy2 := digitChar_toNat (y / 10 / 10 % 10) (by omega)
  have vy3 := digitChar_toNat (y / 10 % 10) (by omega)
  have vy4 := digitChar_toNat (y % 10) (by omega)
  have vm1 := digitChar_toNat (m / 10 % 10) (by omega)
  have vm2 := digitChar_toNat (m % 10) (by omega)
  have vd1 := digitChar_toNat (d / 10 % 10) (by omega)
  have vd2 := digitChar_toNat (d % 10) (by omega)
  have hyv : ((((digitChar (y / 10 / 10 / 10 % 10)).toNat - 48) * 10 +
      ((digitChar (y / 10 / 10 % 10)).toNat - 48)) * 10 +
      ((digitChar (y / 10 % 10)).toNat - 48)) * 10 + ((digitChar (y % 10)).toNat - 48) = y := by
    omega
  have hmv : ((digitChar (m / 10 % 10)).toNat - 48) * 10 +
      ((digitChar (m % 10)).toNat - 48) = m := by omega
  have hdv : ((digitChar (d / 10 % 10)).toNat - 48) * 10 +
      ((digitChar (d % 10)).toNat - 48) = d := by omega
  simp only [fixedDigits, List.nil_append, List.singleton_append, List.cons_append, dateField]
  rw [if_pos]
  rw [hyv, hmv, hdv]
  exact ⟨y1, y2, y3, y4, trivial, m1, m2, trivial, d1, d2, hm1, hm, hd1, hd⟩

theorem dateField_of_not_isDigit {c : Char} (s : List Char) (hc : c.isDigit = false) :
    dateField (c :: s) = none := by
  unfold dateField
  split
  · rename_i heq
    simp only [List.cons.injEq] at heq
    rw [← heq.1]
    simp [hc]
  · rfl

theorem dateField_of_fifth_digit {a b c d e : Char} (s : List Char) (he : e.isDigit = true) :
    dateField (a :: b :: c :: d :: e :: s) = none := by
  have hne : e ≠ '-' := by
    intro h
    rw [h] at he
    revert he
    decide
  unfold dateField
  split
  · rename_i heq
    simp only [List.cons.injEq] at heq
    obtain ⟨_, _, _, _, h5, _⟩ := heq
    rw [← h5]
    simp [hne]
  · rfl

theorem year_range_iff (abs : Nat) :
    (0 ≤ (absDate abs).1 ∧ (absDate abs).1 ≤ 9999) ↔
      (absYearZero ≤ abs ∧ abs < absYearTenThousand) := by
  constructor
  · intro hyear
    obtain ⟨hd, h366, h365⟩ := absYearDay_spec (abs / secondsPerDay)
    have hy : yearsToYearZero ≤ (absYearDay (abs / secondsPerDay)).1 ∧
        (absYearDay (abs / secondsPerDay)).1 ≤ yearsToYearZero + 9999 := by
      simp only [absDate, absoluteZeroYear, yearsToYearZero] at *
      omega
    have hlo := daysSinceZero_mono hy.1
    have hhi := daysSinceZero_mono (y := (absYearDay (abs / secondsPerDay)).1 + 1)
      (z := yearsToYearZero + 10000) (by omega)
    rw [daysSinceZero_yearZero] at hlo
    rw [daysSinceZero_yearTenThousand] at hhi
    obtain ⟨hs1, hs2⟩ := daysSinceZero_succ (absYearDay (abs / secondsPerDay)).1
    simp only [absYearZero, absYearTenThousand, secondsPerDay] at *
    by_cases hl : leapAfterZero (absYearDay (abs / 86400)).1
    · have := hs2 hl
      omega
    · have := h365 hl
      omega
  · intro ⟨hlo, hhi⟩
    have h1 := absDate_year hlo hhi
    have h2 := year_lt hlo hhi
    rw [h1]
    norm_num at h2
    omega

theorem timestampFields_bind (s : List Char) :
    timestampFields s =
      ((((((((dateField s).bind (expectByte 'T')).bind (twoDigitField 0 23)).bind
      (expectByte ':')).bind (twoDigitField 0 59)).bind (expectByte ':')).bind
      (twoDigitField 0 59)).bind fractionField).bind zoneField := by
  unfold timestampFields
  cases dateField s <;> simp [Option.bind_assoc]

theorem absDate_day_le {abs : Nat} (hlo : absYearZero ≤ abs) (hhi : abs < absYearTenThousand) :
    (absDate abs).2.2 ≤
      daysInMonth (leapYear ((absYearDay (abs / secondsPerDay)).1 - yearsToYearZero))
        (absDate abs).2.1 := by
  obtain ⟨_, h366, h365⟩ := absYearDay_spec (abs / secondsPerDay)
  have hyear := absDate_year hlo hhi
  rw [← isLeap_natCast, ← hyear]
  simp only [absDate]
  apply monthDay_le_daysInMonth _ _ h366
  intro hleap
  apply h365
  rw [← isLeap_iff]
  simp [hleap]

theorem timestampFields_Format_inside (t : Time) (hlo : absYearZero ≤ t.abs)
    (hhi : t.abs < absYearTenThousand) :
    timestampFields (t.AppendFormat [] layout) = some [] := by
  obtain ⟨hh, hm, hs⟩ := absClock_lt t.abs
  obtain ⟨hmo1, hmo, hd1, hd⟩ := absDate_range t.abs
  have hday := absDate_day_le hlo hhi
  have hy := year_lt hlo hhi
  rw [AppendFormat_eq, timestampFields_bind, appendInt_year hlo hhi]
  simp only [monthToSecondText, List.cons_append, List.append_assoc]
  rw [dateField_fixedDigits _ (by norm_num at hy; omega) hmo1 hmo hd1 hday hd]
  simp only [Option.some_bind, expectByte, if_true]
  rw [twoDigitField_fixedDigits _ (Nat.zero_le _) (by omega) (by omega)]
  simp only [Option.some_bind, expectByte, if_true]
  rw [twoDigitField_fixedDigits _ (Nat.zero_le _) (by omega) (by omega)]
  simp only [Option.some_bind, expectByte, if_true]
  rw [twoDigitField_fixedDigits _ (Nat.zero_le _) (by omega) (by omega)]
  simp only [Option.some_bind]
  rw [fractionField_fracText t.nsec_lt]
  simp only [Option.some_bind]
  exact zoneField_zoneText t.offset_gt t.offset_lt

theorem decimalDigits_length_pos (room u : Nat) : 1 ≤ (decimalDigits room u).length := by
  cases room with
  | zero => simp [decimalDigits]
  | succ room =>
    simp only [decimalDigits]
    split <;> simp

theorem decimalDigits_length_ge (k : Nat) : ∀ room u : Nat, 10 ^ k ≤ u → k ≤ room →
    k + 1 ≤ (decimalDigits room u).length := by
  induction k with
  | zero => intro room u _ _; exact decimalDigits_length_pos room u
  | succ k ih =>
    intro room u hu hroom
    obtain ⟨r, rfl⟩ : ∃ r, room = r + 1 := ⟨room - 1, by omega⟩
    have hpos : 0 < 10 ^ k := Nat.pow_pos (by omega)
    rw [Nat.pow_succ] at hu
    have h10 : ¬ u < 10 := by omega
    have := ih r (u / 10) (by omega) (by omega)
    simp only [decimalDigits, h10, if_false, List.length_append, List.length_singleton]
    omega

theorem decimalDigits_five {u : Nat} (hu : 10000 ≤ u) :
    ∃ a b c d e s, decimalDigits 19 u = a :: b :: c :: d :: e :: s ∧ e.isDigit = true := by
  have hlen : 5 ≤ (decimalDigits 19 u).length :=
    decimalDigits_length_ge 4 19 u (by norm_num; omega) (by omega)
  have hdig := decimalDigits_isDigit 19 u
  match hds : decimalDigits 19 u, hlen, hdig with
  | a :: b :: c :: d :: e :: s, _, hdig =>
    exact ⟨a, b, c, d, e, s, rfl, hdig e (by simp)⟩

theorem timestampFields_Format_outside (t : Time)
    (h : ¬ (0 ≤ (absDate t.abs).1 ∧ (absDate t.abs).1 ≤ 9999)) :
    timestampFields (t.AppendFormat [] layout) = none := by
  rw [AppendFormat_eq, timestampFields_bind]
  have hnone : dateField (appendInt [] (absDate t.abs).1 4 ++
      (monthToSecondText t.abs ++ (fracText t.nsec ++ zoneText t.offset))) = none := by
    by_cases hneg : (absDate t.abs).1 < 0
    · simp only [appendInt, hneg, if_true, List.nil_append, List.cons_append]
      exact dateField_of_not_isDigit _ (by decide)
    · obtain ⟨u, hu⟩ : ∃ u : Nat, (absDate t.abs).1 = (u : Int) :=
        ⟨(absDate t.abs).1.natAbs, by omega⟩
      have hu5 : 10000 ≤ u := by omega
      obtain ⟨a, b, c, d, e, s, hds, he⟩ := decimalDigits_five hu5
      have hlen : 4 - (decimalDigits 19 u).length = 0 := by
        rw [hds]
        simp
      have happ : appendInt [] (u : Int) 4 = decimalDigits 19 u := by
        simp only [appendInt, Int.natAbs_ofNat, hlen, List.replicate_zero, List.append_nil]
        rw [if_neg (by omega)]
        rfl
      rw [hu, happ, hds]
      exact dateField_of_fifth_digit _ he
  rw [hnone]
  rfl

/-- The formatted text of a clock reading is a valid timestamp exactly when the year of the
reading is in 0000 to 9999. -/
theorem validTimestamp_Format_iff (t : Time) :
    validTimestamp t.Format = true ↔ (0 ≤ t.Year ∧ t.Year ≤ 9999) := by
  simp only [validTimestamp, Time.Format, Time.Year, beq_iff_eq]
  constructor
  · intro hvalid
    by_contra hout
    rw [timestampFields_Format_outside t hout] at hvalid
    exact absurd hvalid (by simp)
  · intro hin
    obtain ⟨hlo, hhi⟩ := (year_range_iff t.abs).mp hin
    exact timestampFields_Format_inside t hlo hhi

/-! ## The claims -/

theorem pong_of_hello :
    "Greetings from Pong! Ping Echoed: " ++ "Hello" = "Greetings from Pong! Ping Echoed: Hello" := by
  decide

/-- C1. Echo: for every request and every clock reading, the message the handler returns has
its ping field equal to the ping field of the request. -/
theorem PingPong_echoes_ping (t : Time) (m : PingPongMesg) :
    ∃ r, (PingPong t m).reply = some r ∧ r.Ping = m.Ping :=
  ⟨_, rfl, rfl⟩

/-- C2. For every request and every clock reading the pong field of the reply is the fixed
prefix followed by the ping of the request; for the ping `Hello` the reply has the pong
`Greetings from Pong! Ping Echoed: Hello` and the ping `Hello`. -/
theorem PingPong_pong_template (t : Time) (m : PingPongMesg) :
    (∃ r, (PingPong t m).reply = some r ∧
      r.Pong = "Greetings from Pong! Ping Echoed: " ++ m.Ping) ∧
    (∃ r, (PingPong t { m with Ping := "Hello" }).reply = some r ∧
      r.Pong = "Greetings from Pong! Ping Echoed: Hello" ∧ r.Ping = "Hello") :=
  ⟨⟨_, rfl, rfl⟩, ⟨_, rfl, pong_of_hello, rfl⟩⟩

/-- C3. For every request and any two clock readings the two replies have the same pong and
the same ping, and differ at most in the timestamp; the pong contains the ping of the request
as a contiguous piece. -/
theorem PingPong_pong_deterministic (m : PingPongMesg) (t1 t2 : Time) :
    ∃ r1 r2, (PingPong t1 m).reply = some r1 ∧ (PingPong t2 m).reply = some r2 ∧
      r1.Pong = r2.Pong ∧ r1.Ping = r2.Ping ∧ r1 = { r2 with Timestamp := r1.Timestamp } ∧
      ∃ before after : String, r1.Pong = before ++ m.Ping ++ after :=
  ⟨_, _, rfl, rfl, rfl, rfl, rfl, "Greetings from Pong! Ping Echoed: ", "", by simp⟩

/-- C4, as stated, fails: in UTC, of two calls half a second apart, the first at a whole
second, the later one returns the timestamp `2024-01-01T12:00:00.5Z`, which is less than the
timestamp `2024-01-01T12:00:00Z` of the earlier one. -/
theorem timestamp_text_decreases_in_utc :
    noonUTC.notAfter halfPastNoonUTC ∧
    (PingPong noonUTC requestMesg).reply = some
      { Ping := "Hello", Pong := "Greetings from Pong! Ping Echoed: Hello",
        Timestamp := "2024-01-01T12:00:00Z" } ∧
    (PingPong halfPastNoonUTC requestMesg).reply = some
      { Ping := "Hello", Pong := "Greetings from Pong! Ping Echoed: Hello",
        Timestamp := "2024-01-01T12:00:00.5Z" } ∧
    ¬ ("2024-01-01T12:00:00Z" ≤ "2024-01-01T12:00:00.5Z") :=
  ⟨by decide, by decide, by decide, not_le.mpr (String.lt_iff_toList_lt.mpr (by decide))⟩

/-- C4, amended. For two calls whose clock readings have the same zone offset and local
dates in the years 0000 to 9999, the second reading being not earlier than the first, the
timestamp of the second reply is greater than or equal to that of the first, except in one
case only: in UTC, when the two readings are of the same second with different nanoseconds and
the fraction printed for the first (nothing at all for no nanoseconds) is a piece at the
front of the fraction printed for the second. -/
theorem timestamp_text_order (t1 t2 : Time) (m1 m2 : PingPongMesg)
    (hle : t1.notAfter t2) (hzone : t1.offset = t2.offset)
    (h1 : t1.inYearRange) (h2 : t2.inYearRange) :
    ∃ r1 r2, (PingPong t1 m1).reply = some r1 ∧ (PingPong t2 m2).reply = some r2 ∧
      (r1.Timestamp ≤ r2.Timestamp ↔
        ¬ (t1.offset = 0 ∧ t1.sec = t2.sec ∧ t1.nsec < t2.nsec ∧
          formatNano [] t1.nsec <+: formatNano [] t2.nsec)) :=
  ⟨_, _, rfl, rfl, Format_le_iff hle hzone h1 h2⟩

/-- C4, amended, at two readings in UTC a second and a quarter apart: the timestamp of the
second reply is greater than or equal to that of the first. -/
theorem timestamp_text_order_witness :
    noonUTC.notAfter afterNoonUTC ∧ noonUTC.offset = afterNoonUTC.offset ∧
    noonUTC.inYearRange ∧ afterNoonUTC.inYearRange ∧
    ∃ r1 r2, (PingPong noonUTC requestMesg).reply = some r1 ∧
      (PingPong afterNoonUTC requestMesg).reply = some r2 ∧
      r1.Timestamp ≤ r2.Timestamp := by
  obtain ⟨r1, r2, e1, e2, horder⟩ :=
    timestamp_text_order noonUTC afterNoonUTC requestMesg requestMesg
      (by decide) (by decide) (by decide) (by decide)
  exact ⟨by decide, by decide, by decide, by decide, r1, r2, e1, e2,
    horder.mpr (by decide)⟩

/-- When the zone offset changes between two readings the text can decrease. -/
theorem Format_decreases_on_zone_change :
    beforeClockChange.notAfter afterClockChange ∧
    beforeClockChange.Format = "2024-10-27T02:59:59+02:00" ∧
    afterClockChange.Format = "2024-10-27T02:00:00+01:00" ∧
    afterClockChange.Format < beforeClockChange.Format :=
  ⟨by decide, by decide, by decide, String.lt_iff_toList_lt.mpr (by decide)⟩

/-- When the year gets a fifth digit the text decreases. -/
theorem Format_decreases_at_year_10000 :
    endOfYear9999.notAfter startOfYear10000 ∧
    endOfYear9999.Format = "9999-12-31T23:59:59+01:00" ∧
    startOfYear10000.Format = "10000-01-01T00:00:00+01:00" ∧
    startOfYear10000.Format < endOfYear9999.Format :=
  ⟨by decide, by decide, by decide, String.lt_iff_toList_lt.mpr (by decide)⟩

theorem pong_of_empty :
    "Greetings from Pong! Ping Echoed: " ++ "" = "Greetings from Pong! Ping Echoed: " := by
  decide

theorem pong_of_empty_ne : "Greetings from Pong! Ping Echoed: " ++ "" ≠ "" := by
  decide

theorem pong_of_hello_ne : "Greetings from Pong! Ping Echoed: " ++ "Hello" ≠ "" := by
  decide

/-- C5, at the failing input: with nothing listening, the call returns an error and no
response; `main` prints the error, then panics on reading `response.Pong` through the nil
pointer, so neither the pong line nor the latency line is printed. The same holds whatever
`grpc.Dial` returned and whatever the error of the call: the run ends in a panic. -/
theorem requesterMain_panics_without_response :
    requesterMain noListenerEnv =
      { events :=
          [.stdout "Ping: at 2024-01-01T12:00:00Z\n",
           .stdout ("Error when calling PingPongHandler: " ++
             "rpc error: code = Unavailable desc = connection refused\n"),
           .close (some ())]
        exit := .panicked } ∧
    ∀ (dialConn : Option Unit) (dialErr err : Option Error) (previousTime currentTime : Time)
      (elapsedSeconds : Time → Time → String),
      (requesterMain
        { dialConn := dialConn, dialErr := dialErr, previousTime := previousTime,
          call := fun _ => (none, err), currentTime := currentTime,
          elapsedSeconds := elapsedSeconds }).exit = .panicked :=
  ⟨by decide, fun _ _ _ _ _ _ => rfl⟩

/-- C6, as stated, fails: at the first second of the year 10000 in UTC the handler, given the
empty ping, returns the timestamp `10000-01-01T00:00:00Z`, which is not a valid timestamp:
its year has five digits. -/
theorem empty_ping_timestamp_invalid_in_year_10000 :
    (PingPong yearTenThousandUTC { Ping := "" }).reply = some
      { Ping := "", Pong := "Greetings from Pong! Ping Echoed: ",
        Timestamp := "10000-01-01T00:00:00Z" } ∧
    validTimestamp "10000-01-01T00:00:00Z" = false :=
  ⟨by decide, by decide⟩

/-- C6, amended. Empty ping: for the request with the empty ping and every clock reading the
handler returns a message and no error; the ping of the message is empty, its pong is the
bare template and so not empty, and its timestamp is not empty; the timestamp is a valid
timestamp exactly when the year of the reading is in 0000 to 9999. -/
theorem PingPong_empty_ping (t : Time) (pong timestamp : String) :
    (PingPong t { Ping := "", Pong := pong, Timestamp := timestamp }).err = none ∧
    ∃ r, (PingPong t { Ping := "", Pong := pong, Timestamp := timestamp }).reply = some r ∧
      r.Ping = "" ∧ r.Pong = "Greetings from Pong! Ping Echoed: " ∧ r.Pong ≠ "" ∧
      r.Timestamp ≠ "" ∧
      (validTimestamp r.Timestamp = true ↔ (0 ≤ t.Year ∧ t.Year ≤ 9999)) :=
  ⟨rfl, _, rfl, rfl, pong_of_empty, pong_of_empty_ne, Format_ne_empty t,
    validTimestamp_Format_iff t⟩

/-- C6, amended, at a reading of the year 2024: the timestamp is a valid timestamp. -/
theorem PingPong_empty_ping_witness :
    (0 ≤ eveningEast.Year ∧ eveningEast.Year ≤ 9999) ∧
    ∃ r, (PingPong eveningEast { Ping := "" }).reply = some r ∧ r.Ping = "" ∧
      r.Timestamp ≠ "" ∧ validTimestamp r.Timestamp = true := by
  obtain ⟨_, r, hr, hping, _, _, hne, hvalid⟩ := PingPong_empty_ping eveningEast "" ""
  exact ⟨by decide, r, hr, hping, hne, hvalid.mpr (by decide)⟩

/-- C7. Round trip: the requester's message has the ping `Hello` and an empty pong and
timestamp; handled at any clock reading it gives a reply with the ping `Hello`, a pong that is
not empty and a timestamp that is not empty; and a run of the requester whose call reaches
the handler prints that pong and that timestamp. -/
theorem round_trip (serverTime previousTime currentTime : Time)
    (elapsedSeconds : Time → Time → String) :
    requestMesg = { Ping := "Hello", Pong := "", Timestamp := "" } ∧
    ∃ r, (PingPong serverTime requestMesg).reply = some r ∧
      r.Ping = "Hello" ∧ r.Pong ≠ "" ∧ r.Timestamp ≠ "" ∧
      requesterMain
        { dialConn := some (), dialErr := none, previousTime := previousTime,
          call := callResponder serverTime, currentTime := currentTime,
          elapsedSeconds := elapsedSeconds } =
        { events :=
            [.stdout ("Ping: at " ++ previousTime.Format ++ "\n"),
             .stdout ("Pong from server: " ++ r.Pong ++ " (at " ++ r.Timestamp ++ ")\n"),
             .stdout ("End-to-End latency is: " ++
               elapsedSeconds currentTime previousTime ++ " Seconds\n"),
             .close (some ())]
          exit := .returned } :=
  ⟨rfl, _, rfl, rfl, pong_of_hello_ne, Format_ne_empty serverTime, rfl⟩

/-- C8. The handler has no error path: for every request and every clock reading it returns
a message and a nil error. -/
theorem PingPong_no_error (t : Time) (m : PingPongMesg) :
    (PingPong t m).err = none ∧ (PingPong t m).reply.isSome = true :=
  ⟨rfl, rfl⟩

/-- C9, at the failing input: when `net.Listen` returns an error and no listener, `main`
prints the failure and then registers the service and calls `Serve` with the nil listener,
whatever `Serve` goes on to do. -/
theorem responderMain_serves_after_listen_failure (err : Error)
    (serve : Option Unit → ServeOutcome) :
    (responderMain { listenConn := none, listenErr := some err, serve := serve }).events.take 4 =
      [.stdout "grpc_pingpong server is waiting for service requests ...\n",
       .stdout ("Failed to listen: " ++ err ++ "\n"),
       .register,
       .serve none] := by
  simp only [responderMain]
  cases h : serve none with
  | returns e => cases e <;> rfl
  | panics => rfl
  | blocks => rfl

/-- C10. For every request and clock reading the handler writes the line
`Receiving Ping: ` followed by the ping of the request, ` (at `, the timestamp and `)`, the
timestamp in the line being the timestamp field of the reply, which is the one clock reading
in the layout. -/
theorem PingPong_log_line (t : Time) (m : PingPongMesg) :
    ∃ r, (PingPong t m).reply = some r ∧ r.Timestamp = t.Format ∧
      (PingPong t m).stdout = "Receiving Ping: " ++ m.Ping ++ " (at " ++ r.Timestamp ++ ")\n" :=
  ⟨_, rfl, rfl, rfl⟩

end GrpcPingPong
